import Mathlib

/-!
Verification of the colored Petri net engine (`colored-petri-net.ts`) and its
contextual-hint module (`contextual-hints.ts`).

The TypeScript classes are shallowly embedded: the mutable `ColoredPetriNet`
object becomes a state record threaded explicitly through every operation, JS
`Map`s become association lists preserving insertion order (with `Map.set`
overwrite-in-place semantics), JS exceptions become `Except`-style results that
are returned *together with* the state as mutated up to the throw point (JS
exceptions do not roll back prior mutations of `this`), and the untyped token
colors (`any`) become the inductive `AnyVal`, which can embed bindings because
a firing with no handler uses the binding object itself as the produced color.
Handlers, guards, patterns and arc expressions are embedded as Lean functions.
Numbers that hold confidence scores are modelled as exact rationals; at every
value this development evaluates (multiples of 0.1 up to 1.0) IEEE doubles and
rationals agree.
-/

/-- Untyped JS value: enough of `any` to carry token colors and bindings.
`obj` is a JS object literal as an insertion-ordered field list. -/
inductive AnyVal where
  | nat (n : Nat)
  | str (s : String)
  | obj (fields : List (String × AnyVal))

/-- A `Binding` maps variable names to token colors
(JS object, insertion-ordered). -/
abbrev Binding := List (String × AnyVal)

/-- `Token` interface: id, color, current place id. -/
structure Token where
  id : String
  color : AnyVal
  place : String

/-- `Place` interface: id, display name, optional description, FIFO tokens. -/
structure Place where
  id : String
  name : String
  description : Option String := none
  tokens : List Token

/-- `Arc` interface. `pattern` filters input tokens; `expression` maps the
firing result to an output token color. -/
structure Arc where
  id : String
  source : String
  target : String
  weight : Option Nat := none
  pattern : Option (Token → Bool) := none
  expression : Option (AnyVal → AnyVal) := none

/-- `Transition` interface. The handler is `async`; a rejected promise is the
`.error` case, carrying the rejection reason. -/
structure Transition where
  id : String
  name : String
  description : Option String := none
  guard : Option (Binding → Bool) := none
  handler : Option (Binding → Except String AnyVal) := none

/-- `SemanticHint` interface (the `example` field is `example'` because
`example` is a Lean keyword). Confidence is an exact rational. -/
structure SemanticHint where
  transitionId : String
  transitionName : String
  description : Option String
  confidence : ℚ
  requiredTokens : List String
  example' : String

/-- The `ColoredPetriNet` class state: two insertion-ordered maps, the arcs
array and the token counter. -/
structure ColoredPetriNet where
  places : List (String × Place) := []
  transitions : List (String × Transition) := []
  arcs : List Arc := []
  tokenCounter : Nat := 0

/-- `Map.get`: first (and in reachable states only) entry with the key. -/
def lookupAssoc (m : List (String × α)) (k : String) : Option α :=
  (m.find? (fun p => p.1 == k)).map (fun p => p.2)

/-- `Map.set`: overwrite in place if the key exists, else append. -/
def setAssoc (m : List (String × α)) (k : String) (v : α) : List (String × α) :=
  match m with
  | [] => [(k, v)]
  | (k', v') :: rest => if k' == k then (k', v) :: rest else (k', v') :: setAssoc rest k v

/-- Mutating the object `Map.get` returns: rewrite the entry in place. -/
def updateAssoc (m : List (String × α)) (k : String) (f : α → α) : List (String × α) :=
  match m with
  | [] => []
  | (k', v') :: rest => if k' == k then (k', f v') :: rest else (k', v') :: updateAssoc rest k f

/-- JS `obj[k] = v`: overwrite keeps the key's position, else append. -/
def setKey (b : Binding) (k : String) (v : AnyVal) : Binding :=
  match b with
  | [] => [(k, v)]
  | (k', v') :: rest => if k' == k then (k, v) :: rest else (k', v') :: setKey rest k v

/-- JS `delete obj[k]`. -/
def delKey (b : Binding) (k : String) : Binding :=
  b.filter (fun p => p.1 != k)

/-- `arc.weight || 1`: JS `||` treats `0` (falsy) like `undefined`. -/
def arcWeight (arc : Arc) : Nat :=
  match arc.weight with
  | none => 1
  | some w => if w = 0 then 1 else w

/-- `(t) => !arc.pattern || arc.pattern(t)`. -/
def patPred (arc : Arc) (t : Token) : Bool :=
  match arc.pattern with
  | none => true
  | some p => p t

namespace ColoredPetriNet

/-- `addPlace`: `this.places.set(place.id, place)` - no duplicate check. -/
def addPlace (s : ColoredPetriNet) (place : Place) : ColoredPetriNet :=
  { s with places := setAssoc s.places place.id place }

/-- `addTransition`: `this.transitions.set(transition.id, transition)` -
no duplicate check. -/
def addTransition (s : ColoredPetriNet) (transition : Transition) : ColoredPetriNet :=
  { s with transitions := setAssoc s.transitions transition.id transition }

/-- `addArc`: `this.arcs.push(arc)` - no endpoint validation at all. -/
def addArc (s : ColoredPetriNet) (arc : Arc) : ColoredPetriNet :=
  { s with arcs := s.arcs ++ [arc] }

/-- `token-${n}`. -/
def mkTokenId (n : Nat) : String :=
  ("token-").append (Nat.repr n)

/-- `addToken`: throws if the place is missing, otherwise increments the
counter, mints `token-${++counter}` and appends it to the place. -/
def addToken (s : ColoredPetriNet) (placeId : String) (color : AnyVal) :
    Except String (ColoredPetriNet × String) :=
  match lookupAssoc s.places placeId with
  | none => .error (("Place ").append (placeId.append (" not found")))
  | some _ =>
    let n := s.tokenCounter + 1
    let tok : Token := { id := mkTokenId n, color := color, place := placeId }
    .ok ({ s with
            tokenCounter := n,
            places := updateAssoc s.places placeId
              (fun p => { p with tokens := p.tokens ++ [tok] }) },
         mkTokenId n)

/-- `getInputArcs`: arcs whose target is the transition, in push order. -/
def getInputArcs (s : ColoredPetriNet) (transitionId : String) : List Arc :=
  s.arcs.filter (fun arc => arc.target == transitionId)

/-- `getOutputArcs`: arcs whose source is the transition, in push order. -/
def getOutputArcs (s : ColoredPetriNet) (transitionId : String) : List Arc :=
  s.arcs.filter (fun arc => arc.source == transitionId)

/-- The recursive closure `checkBinding(arcIndex, currentBinding)` of
`findValidBindings`.  `currentBinding` is mutated in place by the JS code
(set, recurse, delete), so the embedding returns the binding object's final
contents next to the collected bindings; the token loop over one arc is the
`foldl`.  Note the variable name is derived from the *place* id, so two arcs
reading one place share a variable, and the `delete` after the recursive call
removes the variable even if an earlier arc had set it. -/
def checkBinding (s : ColoredPetriNet) : List Arc → Binding → List Binding × Binding
  | [], cur => ([cur], cur)
  | arc :: rest, cur =>
    match lookupAssoc s.places arc.source with
    | none => ([], cur)
    | some place =>
      place.tokens.foldl
        (fun acc tok =>
          if patPred arc tok then
            let v := arc.source.append ("_token")
            let stepped := checkBinding s rest (setKey acc.2 v tok.color)
            (acc.1 ++ stepped.1, delKey stepped.2 v)
          else acc)
        (([] : List Binding), cur)

/-- `findValidBindings(inputArcs)`: `[{}]` when there are no input arcs,
otherwise all bindings collected by `checkBinding(0, {})`. -/
def findValidBindings (s : ColoredPetriNet) (inputArcs : List Arc) : List Binding :=
  match inputArcs with
  | [] => [[]]
  | _ :: _ => (checkBinding s inputArcs []).1

end ColoredPetriNet

/-- JS `name.split(':')` , specialised to the one-character separator the code
uses: cut at every colon, keeping empty segments. -/
def splitColons (s : String) : List String :=
  go s.data []
where
  go : List Char → List Char → List String
    | [], acc => [String.mk acc.reverse]
    | c :: cs, acc =>
      if c = ':' then String.mk acc.reverse :: go cs [] else go cs (c :: acc)

/-- `calculateConfidence`: base 0.5, +0.1 per binding key when there is at
least one, +0.2 for a 3-segment name, `Math.min(_, 1.0)`. -/
def calculateConfidence (transition : Transition) (binding : Binding) : ℚ :=
  let confidence : ℚ := 1/2
  let bindingSize := binding.length
  let confidence := if bindingSize > 0 then confidence + (1/10) * bindingSize else confidence
  let parts := splitColons transition.name
  let confidence := if parts.length = 3 then confidence + 1/5 else confidence
  min confidence 1

/-- `generateExample` (the unused `binding` parameter is dropped). -/
def generateExample (transition : Transition) : String :=
  match splitColons transition.name with
  | [a, b] => a.append (("(\"").append (b.append ("\")")))
  | [a, b, c] => a.append (("(\"").append (b.append (("\", \"").append (c.append ("\")")))))
  | _ => transition.name

/-- Stable insertion into a descending-confidence list: ties and smaller
scores go after existing entries, exactly the order the stable JS
`sort((a, b) => b.confidence - a.confidence)` produces. -/
def insertHint (x : SemanticHint) : List SemanticHint → List SemanticHint
  | [] => [x]
  | y :: ys => if x.confidence > y.confidence then x :: y :: ys else y :: insertHint x ys

/-- Stable sort by descending confidence. -/
def sortHints (l : List SemanticHint) : List SemanticHint :=
  l.foldr insertHint []

namespace ColoredPetriNet

/-- The hint pushed for one (transition, guard-passing binding) pair. -/
def mkHint (t : Transition) (binding : Binding) : SemanticHint :=
  { transitionId := t.id,
    transitionName := t.name,
    description := t.description,
    confidence := calculateConfidence t binding,
    requiredTokens := binding.map (fun p => p.1),
    example' := generateExample t }

/-- `(binding) => !t.guard || t.guard(binding)` as used in the hint loop. -/
def guardPasses (t : Transition) (binding : Binding) : Bool :=
  match t.guard with
  | none => true
  | some g => g binding

/-- `getEnabledTransitions`: for every transition in insertion order, one hint
per guard-passing binding, then sorted by descending confidence. -/
def getEnabledTransitions (s : ColoredPetriNet) : List SemanticHint :=
  sortHints
    ((s.transitions.map (fun p => p.2)).flatMap
      (fun t =>
        ((findValidBindings s (getInputArcs s t.id)).filter (guardPasses t)).map (mkHint t)))

/-- Remove the first token satisfying the predicate
(`findIndex` + `splice(i, 1)`; no match leaves the list unchanged). -/
def removeFirst (pred : Token → Bool) : List Token → List Token
  | [] => []
  | t :: ts => if pred t then ts else t :: removeFirst pred ts

/-- The `for (let i = 0; i < tokensToRemove; i++)` loop: `n` single-token
removal passes. -/
def removeN : Nat → (Token → Bool) → List Token → List Token
  | 0, _, ts => ts
  | n + 1, pred, ts => removeN n pred (removeFirst pred ts)

/-- Consumption for one input arc: look the source place up in the current
state; if present, remove `weight`-many pattern-matching tokens (fewer when
the place runs out - the JS loop just skips when `findIndex` returns -1). -/
def consumeArc (s : ColoredPetriNet) (arc : Arc) : ColoredPetriNet :=
  match lookupAssoc s.places arc.source with
  | none => s
  | some _ =>
    let strip : Place → Place :=
      fun p => { p with tokens := removeN (arcWeight arc) (patPred arc) p.tokens }
    { s with places := updateAssoc s.places arc.source strip }

/-- The whole `// Remove tokens from input places` loop. -/
def consumeAll (s : ColoredPetriNet) (inputArcs : List Arc) : ColoredPetriNet :=
  inputArcs.foldl consumeArc s

/-- `let result = binding; if (transition.handler) result = await ...`:
without a handler the result is the binding object itself. -/
def handlerResult (t : Transition) (binding : Binding) : Except String AnyVal :=
  match t.handler with
  | none => .ok (.obj binding)
  | some h => h binding

/-- The inner `for (let i = 0; i < tokensToAdd; i++)` production loop for one
output arc.  `addToken` can throw (missing target place); the mutations made
before the throw survive, so the state is returned next to the error. -/
def produceArc (result : AnyVal) (arc : Arc) :
    Nat → ColoredPetriNet → ColoredPetriNet × Option String
  | 0, s => (s, none)
  | n + 1, s =>
    let tokenColor := match arc.expression with
      | some e => e result
      | none => result
    match s.addToken arc.target tokenColor with
    | .error e => (s, some e)
    | .ok (s', _) => produceArc result arc n s'

/-- The outer `// Add tokens to output places` loop. -/
def produceAll (result : AnyVal) : List Arc → ColoredPetriNet → ColoredPetriNet × Option String
  | [], s => (s, none)
  | arc :: rest, s =>
    match produceArc result arc (arcWeight arc) s with
    | (s', none) => produceAll result rest s'
    | (s', some e) => (s', some e)

/-- The errors `fireTransition` can surface. `notEnabled` carries the message,
the transition name and the hint list, mirroring `TransitionNotEnabledError`;
`thrown` is a plain `Error` (unknown transition, or `addToken` during
production); `handlerFailed` is a rejected handler promise. -/
inductive FireErr where
  | thrown (msg : String)
  | notEnabled (msg : String) (transitionName : String) (hints : List SemanticHint)
  | handlerFailed (reason : String)

/-- Steps of `fireTransition` from consumption onward (reached once a binding
is selected and the guard, if any, has accepted it). -/
def commitPhase (s : ColoredPetriNet) (t : Transition) (transitionId : String)
    (binding : Binding) : ColoredPetriNet × Except FireErr AnyVal :=
  let s1 := consumeAll s (getInputArcs s transitionId)
  match handlerResult t binding with
  | .error e => (s1, .error (.handlerFailed e))
  | .ok result =>
    match produceAll result (getOutputArcs s1 transitionId) s1 with
    | (s2, none) => (s2, .ok result)
    | (s2, some e) => (s2, .error (.thrown e))

/-- `fireTransition(transitionId, selectedBinding?)`.  The state in the result
is the net as left behind (JS mutates `this` in place; a throw after partial
mutation keeps the mutation). -/
def fireTransition (s : ColoredPetriNet) (transitionId : String)
    (selectedBinding : Option Binding) : ColoredPetriNet × Except FireErr AnyVal :=
  match lookupAssoc s.transitions transitionId with
  | none => (s, .error (.thrown (("Transition ").append (transitionId.append (" not found")))))
  | some t =>
    let inputArcs := getInputArcs s transitionId
    let bindings := match selectedBinding with
      | some b => [b]
      | none => findValidBindings s inputArcs
    match bindings with
    | [] =>
      (s, .error (.notEnabled
        (("Transition ").append (transitionId.append (" is not enabled")))
        t.name (getEnabledTransitions s)))
    | binding :: _ =>
      match t.guard with
      | some g =>
        if g binding then commitPhase s t transitionId binding
        else
          (s, .error (.notEnabled
            (("Guard condition failed for transition ").append transitionId)
            t.name (getEnabledTransitions s)))
      | none => commitPhase s t transitionId binding

end ColoredPetriNet

/-- The object returned by `getState()`. -/
structure StateView where
  places : List Place
  transitions : List Transition
  arcs : List Arc

/-- `getState`: `Array.from` over both maps plus the arcs array. -/
def ColoredPetriNet.getState (s : ColoredPetriNet) : StateView :=
  { places := s.places.map (fun p => p.2),
    transitions := s.transitions.map (fun p => p.2),
    arcs := s.arcs }

/-- `getState()` copies neither the `Place` objects nor their token arrays:
`Array.from(this.places.values())` is a fresh array whose elements are the
engine's own `Place` objects.  A caller running
`getState().places[i].tokens.push(tok)` therefore appends to the engine's own
token array.  This definition is that caller-side mutation expressed on the
engine state it aliases: the snapshot entry whose id is `pid` is the same
object as the engine's map entry with key `pid`. -/
def ColoredPetriNet.snapshotPushToken (s : ColoredPetriNet) (pid : String)
    (tok : Token) : ColoredPetriNet :=
  let push : Place → Place := fun p => { p with tokens := p.tokens ++ [tok] }
  { s with places := updateAssoc s.places pid push }

/-! The contextual-hint module (`contextual-hints.ts`) works on the
`getState()` view. -/

/-- `getInputPlaces(state, transitionId)`. -/
def getInputPlaces (st : StateView) (transitionId : String) : List String :=
  (st.arcs.filter (fun arc => arc.target == transitionId)).map (fun arc => arc.source)

/-- `checkTransitionEnabled(state, transitionId)`: every input arc's source
place exists and is nonempty. -/
def checkTransitionEnabled (st : StateView) (transitionId : String) : Bool :=
  (st.arcs.filter (fun arc => arc.target == transitionId)).all
    (fun arc =>
      match st.places.find? (fun p => p.id == arc.source) with
      | none => false
      | some place => !place.tokens.isEmpty)

/-- `[...new Set(path)]`: deduplicate keeping first occurrences. -/
def dedupKeepFirst (seen : List String) : List String → List String
  | [] => []
  | x :: xs =>
    if seen.contains x then dedupKeepFirst seen xs
    else x :: dedupKeepFirst (x :: seen) xs

/-- The `for (const arc of producingArcs)` loop of `findPathToFulfill`;
`rec` is the recursive call into the unmet prerequisites of a transition that
is not currently enabled. -/
def fpfArcs (st : StateView) (rec : List String → Option (List String)) :
    List Arc → Option (List String)
  | [] => some []
  | arc :: rest =>
    match st.transitions.find? (fun t => t.id == arc.source) with
    | none => fpfArcs st rec rest
    | some t =>
      if checkTransitionEnabled st t.id then
        (fpfArcs st rec rest).map (fun more => t.name :: more)
      else
        match rec (getInputPlaces st t.id) with
        | none => none
        | some prior => (fpfArcs st rec rest).map (fun more => prior ++ t.name :: more)

/-- The `for (const placeId of targetPlaces)` loop of `findPathToFulfill`. -/
def fpfPlaces (st : StateView) (rec : List String → Option (List String)) :
    List String → Option (List String)
  | [] => some []
  | pid :: rest =>
    match fpfArcs st rec (st.arcs.filter (fun arc => arc.target == pid)) with
    | none => none
    | some seg => (fpfPlaces st rec rest).map (fun more => seg ++ more)

/-- `findPathToFulfill(state, targetPlaces)` embedded with an explicit
recursion budget: the JS function recurses into `findPathToFulfill` for every
producing transition that is not enabled, with no visited set, so it need not
terminate; `findPathToFulfill st fuel targets = some path` means the JS call
returns `path` within nesting depth `fuel`, and `none` means the budget was
exhausted before the call could complete.  A call that diverges in JS returns
`none` for every budget. -/
def findPathToFulfill (st : StateView) : Nat → List String → Option (List String)
  | 0, _ => none
  | fuel + 1, targetPlaces =>
    (fpfPlaces st (fun tps => findPathToFulfill st fuel tps) targetPlaces).map
      (dedupKeepFirst [])

/-- Modelled from the spec: the binding search as §4.2 words it - examine
each arc's place in FIFO order, *skip tokens already claimed earlier in this
branch*, accept a token only if the pattern holds.  This is the no-aliasing
search the spec mandates, used only to compare against the code's
`findValidBindings`. -/
def specCheckBinding (s : ColoredPetriNet) :
    List Arc → List String → Binding → List Binding
  | [], _, cur => [cur]
  | arc :: rest, claimed, cur =>
    match lookupAssoc s.places arc.source with
    | none => []
    | some place =>
      (place.tokens.filter
        (fun tok => patPred arc tok && !(claimed.contains tok.id))).flatMap
        (fun tok =>
          specCheckBinding s rest (tok.id :: claimed)
            (setKey cur (arc.source.append ("_token")) tok.color))

/-- Modelled from the spec: entry point of the no-aliasing search. -/
def specFindValidBindings (s : ColoredPetriNet) (inputArcs : List Arc) : List Binding :=
  match inputArcs with
  | [] => [[]]
  | _ :: _ => specCheckBinding s inputArcs [] []

/-- Observation used in the theorems: total number of tokens resident in the
net's places. -/
def totalTokens (s : ColoredPetriNet) : Nat :=
  (s.places.map (fun q => q.2.tokens.length)).sum

/-! ### Concrete nets used by the claim theorems -/

/-- A pre-seeded token sitting in place `p`. -/
def seedTok (n : Nat) : Token :=
  { id := ("seed-").append (Nat.repr n), color := .nat n, place := "p" }

/-- Two-token net with a single input arc: used to trace the binding search. -/
def net0 : ColoredPetriNet :=
  { places := [("p", { id := "p", name := "P", tokens := [seedTok 1, seedTok 2] })],
    transitions := [("t", { id := "t", name := "do:thing" })],
    arcs := [{ id := "a1", source := "p", target := "t" }] }

/-- `net0` with a second input arc reading the same place. -/
def net0' : ColoredPetriNet :=
  { net0 with arcs := net0.arcs ++ [{ id := "a2", source := "p", target := "t" }] }

/-- A handler that always rejects. -/
def failingHandler : Binding → Except String AnyVal :=
  fun _ => .error ("boom")

/-- One token, one input arc, no output arcs, rejecting handler (C1). -/
def handlerFailNet : ColoredPetriNet :=
  { places := [("p", { id := "p", name := "P", tokens := [seedTok 7] })],
    transitions := [("t", { id := "t", name := "do:thing", handler := some failingHandler })],
    arcs := [{ id := "a1", source := "p", target := "t" }] }

/-- One token in `p`, and two unit-weight input arcs both reading `p` (C2):
a no-aliasing search has no complete binding here. -/
def aliasNet : ColoredPetriNet :=
  { places := [("p", { id := "p", name := "P", tokens := [seedTok 0] })],
    transitions := [("t", { id := "t", name := "do:thing" })],
    arcs := [{ id := "a1", source := "p", target := "t" },
             { id := "a2", source := "p", target := "t" }] }

/-- Guard accepting only the color `nat 2` under the variable `p_token`. -/
def wantsTwo : Binding → Bool :=
  fun b =>
    match lookupAssoc b ("p_token") with
    | some (.nat n) => n == 2
    | _ => false

/-- Tokens `nat 1` (first, guard-rejected) and `nat 2` (second,
guard-accepted) with a guarded transition (C3). -/
def guardNet : ColoredPetriNet :=
  { places := [("p", { id := "p", name := "P", tokens := [seedTok 1, seedTok 2] })],
    transitions := [("t", { id := "t", name := "do:thing", guard := some wantsTwo })],
    arcs := [{ id := "a1", source := "p", target := "t" }] }

/-- An arc whose endpoints reference nothing (C4). -/
def danglingArc : Arc :=
  { id := "a1", source := "nowhere", target := "nothing" }

/-- Two distinct places sharing one id (C4). -/
def placeA : Place := { id := "p", name := "first", tokens := [] }

/-- Second place with the same id. -/
def placeB : Place := { id := "p", name := "second", tokens := [] }

/-- A production cycle on an empty place: `t` produces into `p` but also
needs `p`, and `p` is empty (C5). -/
def cycView : StateView :=
  { places := [{ id := "p", name := "P", tokens := [] }],
    transitions := [{ id := "t", name := "spin" }],
    arcs := [{ id := "a1", source := "p", target := "t" },
             { id := "a2", source := "t", target := "p" }] }

/-- Empty input place in front of a transition (C6, C8): not enabled until a
token appears in `p`. -/
def emptyInputNet : ColoredPetriNet :=
  { places := [("p", { id := "p", name := "P", tokens := [] })],
    transitions := [("t", { id := "t", name := "do:thing" })],
    arcs := [{ id := "a1", source := "p", target := "t" }] }

/-- The token a caller pushes through the `getState()` snapshot (C6). -/
def pushedTok : Token :=
  { id := "alien", color := .nat 9, place := "p" }

/-- A 3-segment transition for the confidence witness (C7). -/
def threeSegT : Transition :=
  { id := "t", name := "search:file:read" }

/-- One-variable binding for the confidence witness (C7). -/
def oneVarB : Binding := [("p_token", .nat 1)]

/-- Net for the supplied-binding firing (C9): empty input place `p`, empty
output place `q`, no guard, no handler. -/
def suppliedNet : ColoredPetriNet :=
  { places := [("p", { id := "p", name := "P", tokens := [] }),
               ("q", { id := "q", name := "Q", tokens := [] })],
    transitions := [("t", { id := "t", name := "do:thing" })],
    arcs := [{ id := "a1", source := "p", target := "t" },
             { id := "a2", source := "t", target := "q" }] }

/-- The binding the caller supplies in the C9 witness. -/
def suppliedB : Binding := [("x", .nat 5)]

/-- The first token `emptyInputNet` mints (C10). -/
def mint1Tok : Token := { id := "token-1", color := .nat 1, place := "p" }

/-- The second token (C10). -/
def mint2Tok : Token := { id := "token-2", color := .nat 2, place := "p" }

/-- `emptyInputNet` after its first mint (C10). -/
def afterMint1 : ColoredPetriNet :=
  { places := [("p", { id := "p", name := "P", tokens := [mint1Tok] })],
    transitions := [("t", { id := "t", name := "do:thing" })],
    arcs := [{ id := "a1", source := "p", target := "t" }],
    tokenCounter := 1 }

/-- `afterMint1` after a second mint (C10). -/
def afterMint2 : ColoredPetriNet :=
  { places := [("p", { id := "p", name := "P", tokens := [mint1Tok, mint2Tok] })],
    transitions := [("t", { id := "t", name := "do:thing" })],
    arcs := [{ id := "a1", source := "p", target := "t" }],
    tokenCounter := 2 }

/-! ### Association-list lemmas -/

theorem lookupAssoc_setAssoc_self (m : List (String × α)) (k : String) (v : α) :
    lookupAssoc (setAssoc m k v) k = some v := by
  induction m with
  | nil => simp [lookupAssoc, setAssoc, List.find?]
  | cons hd tl ih =>
    obtain ⟨k', v'⟩ := hd
    by_cases h : k' = k
    · simp [setAssoc, lookupAssoc, List.find?, h]
    · simpa [setAssoc, lookupAssoc, List.find?, h] using ih

theorem lookupAssoc_updateAssoc_self (m : List (String × α)) (k : String) (f : α → α) :
    lookupAssoc (updateAssoc m k f) k = (lookupAssoc m k).map f := by
  induction m with
  | nil => simp [lookupAssoc, updateAssoc]
  | cons hd tl ih =>
    obtain ⟨k', v'⟩ := hd
    by_cases h : k' = k
    · simp [updateAssoc, lookupAssoc, List.find?, h]
    · have hb : (k' == k) = false := by simp [h]
      simpa [updateAssoc, lookupAssoc, List.find?, hb] using ih

theorem lookupAssoc_updateAssoc_ne (m : List (String × α)) (k k' : String) (f : α → α)
    (h : k' ≠ k) : lookupAssoc (updateAssoc m k f) k' = lookupAssoc m k' := by
  induction m with
  | nil => simp [lookupAssoc, updateAssoc]
  | cons hd tl ih =>
    obtain ⟨k₀, v₀⟩ := hd
    by_cases h0 : k₀ = k
    · subst h0
      have hb : (k₀ == k') = false := by simp [Ne.symm h]
      simp [updateAssoc, lookupAssoc, List.find?, hb]
    · have hb0 : (k₀ == k) = false := by simp [h0]
      by_cases h1 : k₀ = k'
      · simp [updateAssoc, lookupAssoc, List.find?, hb0, h1, h]
      · have hb1 : (k₀ == k') = false := by simp [h1]
        simpa [updateAssoc, lookupAssoc, List.find?, hb0, hb1] using ih

theorem isSome_lookupAssoc_updateAssoc (m : List (String × α)) (k k' : String) (f : α → α) :
    (lookupAssoc (updateAssoc m k f) k').isSome = (lookupAssoc m k').isSome := by
  by_cases h : k' = k
  · subst h
    rw [lookupAssoc_updateAssoc_self]
    cases lookupAssoc m k' <;> rfl
  · rw [lookupAssoc_updateAssoc_ne _ _ _ _ h]

/-! ### Claim C4 -/

/-- C4 (corrected): `addPlace`, `addTransition` and `addArc` perform no
validation whatsoever: `addArc` appends any arc unconditionally (dangling
endpoints and place-place or transition-transition pairs included), and
`addPlace`/`addTransition` silently overwrite an existing entity with the
same id.  No ConstructionError exists in the code. -/
theorem C4_construction_never_validates :
    (∀ (s : ColoredPetriNet) (arc : Arc),
      (s.addArc arc).arcs = s.arcs ++ [arc] ∧
      (s.addArc arc).places = s.places ∧
      (s.addArc arc).transitions = s.transitions) ∧
    (∀ (s : ColoredPetriNet) (p : Place),
      lookupAssoc (s.addPlace p).places p.id = some p) ∧
    (∀ (s : ColoredPetriNet) (t : Transition),
      lookupAssoc (s.addTransition t).transitions t.id = some t) := by
  refine ⟨fun s arc => ⟨rfl, rfl, rfl⟩, fun s p => ?_, fun s t => ?_⟩
  · exact lookupAssoc_setAssoc_self s.places p.id p
  · exact lookupAssoc_setAssoc_self s.transitions t.id t

/-- C4, counterexample to the claim as stated: an arc with two dangling
endpoints is accepted without any error, and a second place with a duplicate
id silently replaces the first instead of being rejected. -/
theorem C4_counterexample :
    (ColoredPetriNet.addArc {} danglingArc).arcs = [danglingArc] ∧
    lookupAssoc (((ColoredPetriNet.addPlace {} placeA).addPlace placeB).places) ("p") =
      some placeB ∧
    placeA.id = placeB.id ∧ placeA ≠ placeB := by
  refine ⟨rfl, rfl, rfl, fun h => ?_⟩
  have hn := congrArg Place.name h
  simp [placeA, placeB] at hn

/-! ### Claim C7 -/

/-- C7 (confirmed): the confidence of a hint is
`min (0.5 + 0.1 * vars + (0.2 if the name has exactly 3 colon-separated
segments)) 1`, always lies in `[0, 1]`, and equals exactly `0.8` for a
3-segment name with a 1-variable binding.  Arithmetic is exact (rationals);
the IEEE evaluation agrees at every reachable value. -/
theorem C7_confidence_formula (t : Transition) (b : Binding) :
    calculateConfidence t b =
      min ((0.5 : ℚ) + (0.1 : ℚ) * b.length +
        (if (splitColons t.name).length = 3 then (0.2 : ℚ) else 0)) 1 ∧
    0 ≤ calculateConfidence t b ∧ calculateConfidence t b ≤ 1 ∧
    ((splitColons t.name).length = 3 → b.length = 1 → calculateConfidence t b = (0.8 : ℚ)) := by
  have hform : calculateConfidence t b =
      min ((0.5 : ℚ) + (0.1 : ℚ) * b.length +
        (if (splitColons t.name).length = 3 then (0.2 : ℚ) else 0)) 1 := by
    by_cases h3 : (splitColons t.name).length = 3 <;>
      rcases Nat.eq_zero_or_pos b.length with h0 | h0 <;>
      simp [calculateConfidence, h3, h0, Nat.pos_iff_ne_zero] <;> norm_num
  have hbase : (0 : ℚ) ≤ (0.5 : ℚ) + (0.1 : ℚ) * b.length +
      (if (splitColons t.name).length = 3 then (0.2 : ℚ) else 0) := by
    have hc : (0 : ℚ) ≤ (b.length : ℚ) := by positivity
    split <;> nlinarith
  refine ⟨hform, ?_, ?_, ?_⟩
  · rw [hform]
    exact le_min hbase (by norm_num)
  · rw [hform]
    exact min_le_right _ _
  · intro h3 h1
    rw [hform, h3, h1]
    norm_num

/-- C7 witness: the spec's own example, `search:file:read` with one bound
variable, has 3 segments, 1 variable, and scores exactly 0.8, within
bounds. -/
theorem C7_witness :
    (splitColons threeSegT.name).length = 3 ∧ oneVarB.length = 1 ∧
    0 ≤ calculateConfidence threeSegT oneVarB ∧ calculateConfidence threeSegT oneVarB ≤ 1 ∧
    calculateConfidence threeSegT oneVarB = (0.8 : ℚ) :=
  ⟨rfl, rfl, (C7_confidence_formula threeSegT oneVarB).2.1,
    (C7_confidence_formula threeSegT oneVarB).2.2.1,
    (C7_confidence_formula threeSegT oneVarB).2.2.2 rfl rfl⟩

/-! ### Claim C8 -/

theorem insertHint_head_cases (x : SemanticHint) (l : List SemanticHint) :
    (insertHint x l).head? = some x ∨ (insertHint x l).head? = l.head? := by
  cases l with
  | nil => left; rfl
  | cons y ys =>
    by_cases hc : x.confidence > y.confidence
    · left; simp [insertHint, hc]
    · right; simp [insertHint, hc]

theorem chain'_insertHint (x : SemanticHint) (l : List SemanticHint)
    (h : List.Chain' (fun a b => b.confidence ≤ a.confidence) l) :
    List.Chain' (fun a b => b.confidence ≤ a.confidence) (insertHint x l) := by
  induction l with
  | nil => simp [insertHint]
  | cons y ys ih =>
    by_cases hc : x.confidence > y.confidence
    · simpa [insertHint, hc, List.chain'_cons] using ⟨le_of_lt hc, h⟩
    · have hys : List.Chain' (fun a b => b.confidence ≤ a.confidence) ys := h.tail
      simp only [insertHint, hc, if_false]
      refine List.chain'_cons'.mpr ⟨?_, ih hys⟩
      intro z hz
      rcases insertHint_head_cases x ys with h1 | h1
      · rw [h1] at hz
        simp only [Option.mem_def, Option.some.injEq] at hz
        subst hz
        exact le_of_not_lt hc
      · rw [h1] at hz
        exact (List.chain'_cons'.mp h).1 z hz

theorem chain'_sortHints (l : List SemanticHint) :
    List.Chain' (fun a b => b.confidence ≤ a.confidence) (sortHints l) := by
  induction l with
  | nil => simp [sortHints]
  | cons x xs ih => exact chain'_insertHint x (sortHints xs) ih

/-- C8 (confirmed): when no binding is supplied and the binding search comes
back empty, `fireTransition` fails with `TransitionNotEnabledError` carrying
the current hint list (which is sorted by descending confidence), and the
state is returned unchanged - the failure happens before any mutation. -/
theorem C8_not_enabled_no_mutation (s : ColoredPetriNet) (tid : String) (t : Transition)
    (ht : lookupAssoc s.transitions tid = some t)
    (hb : ColoredPetriNet.findValidBindings s (ColoredPetriNet.getInputArcs s tid) = []) :
    ColoredPetriNet.fireTransition s tid none =
      (s, .error (.notEnabled (("Transition ").append (tid.append (" is not enabled")))
        t.name (ColoredPetriNet.getEnabledTransitions s))) ∧
    List.Chain' (fun a b => b.confidence ≤ a.confidence)
      (ColoredPetriNet.getEnabledTransitions s) := by
  constructor
  · simp [ColoredPetriNet.fireTransition, ht, hb]
  · exact chain'_sortHints _

/-- C8 witness: a transition behind an empty place fails with the
not-enabled error, unmutated state and the (here empty) ranked hint list. -/
theorem C8_witness :
    ColoredPetriNet.fireTransition emptyInputNet ("t") none =
      (emptyInputNet, .error (.notEnabled
        (("Transition ").append (("t").append (" is not enabled")))
        "do:thing" (ColoredPetriNet.getEnabledTransitions emptyInputNet))) ∧
    List.Chain' (fun a b => b.confidence ≤ a.confidence)
      (ColoredPetriNet.getEnabledTransitions emptyInputNet) :=
  C8_not_enabled_no_mutation emptyInputNet ("t") { id := "t", name := "do:thing" } rfl rfl

/-! ### Claim C3 -/

/-- C3 (amended): with a guard present and no supplied binding,
`fireTransition` consults only the FIRST binding the search found: if the
guard rejects that first binding the call fails with
`TransitionNotEnabledError` (state unmutated) even when the guard accepts a
later candidate; if the guard accepts the first binding the firing proceeds
to the commit phase with it. -/
theorem C3_guard_checks_first_binding_only (s : ColoredPetriNet) (tid : String)
    (t : Transition) (g : Binding → Bool) (b : Binding) (bs : List Binding)
    (ht : lookupAssoc s.transitions tid = some t)
    (hg : t.guard = some g)
    (hb : ColoredPetriNet.findValidBindings s (ColoredPetriNet.getInputArcs s tid) = b :: bs) :
    (g b = false → ColoredPetriNet.fireTransition s tid none =
      (s, .error (.notEnabled (("Guard condition failed for transition ").append tid)
        t.name (ColoredPetriNet.getEnabledTransitions s)))) ∧
    (g b = true → ColoredPetriNet.fireTransition s tid none =
      ColoredPetriNet.commitPhase s t tid b) := by
  constructor
  · intro hgb
    simp [ColoredPetriNet.fireTransition, ht, hb, hg, hgb]
  · intro hgb
    simp [ColoredPetriNet.fireTransition, ht, hb, hg, hgb]

/-- C3 witness: in `guardNet` the first found binding carries `nat 1`, which
the guard rejects, so the call fails; had it carried `nat 2` the firing would
have proceeded. -/
theorem C3_witness :
    (wantsTwo [("p_token", .nat 1)] = false →
      ColoredPetriNet.fireTransition guardNet ("t") none =
        (guardNet, .error (.notEnabled
          (("Guard condition failed for transition ").append ("t"))
          "do:thing" (ColoredPetriNet.getEnabledTransitions guardNet)))) ∧
    (wantsTwo [("p_token", .nat 1)] = true →
      ColoredPetriNet.fireTransition guardNet ("t") none =
        ColoredPetriNet.commitPhase guardNet
          { id := "t", name := "do:thing", guard := some wantsTwo } ("t")
          [("p_token", .nat 1)]) :=
  C3_guard_checks_first_binding_only guardNet ("t")
    { id := "t", name := "do:thing", guard := some wantsTwo } wantsTwo
    [("p_token", .nat 1)] [[("p_token", .nat 2)]] rfl rfl rfl

/-- C3 counterexample to the claim as stated: the guard accepts the second
candidate binding (`nat 2`), so by the claim the firing should proceed, but
the code only tests the first candidate and throws the guard-failure
`TransitionNotEnabledError`. -/
theorem C3_counterexample :
    wantsTwo [("p_token", .nat 2)] = true ∧
    ColoredPetriNet.findValidBindings guardNet (ColoredPetriNet.getInputArcs guardNet ("t")) =
      [[("p_token", .nat 1)], [("p_token", .nat 2)]] ∧
    (ColoredPetriNet.fireTransition guardNet ("t") none).2 =
      .error (.notEnabled (("Guard condition failed for transition ").append ("t"))
        "do:thing" (ColoredPetriNet.getEnabledTransitions guardNet)) :=
  ⟨rfl, rfl, rfl⟩

/-! ### Claim C1 -/

/-- C1 (amended): when the handler rejects, the consumption that
`fireTransition` already applied BEFORE invoking the handler is kept - the
state comes back equal to `consumeAll` of the pre-call state - no output
token is produced, and the handler's error propagates to the caller. -/
theorem C1_handler_failure_keeps_consumption (s : ColoredPetriNet) (tid : String)
    (t : Transition) (b : Binding) (bs : List Binding)
    (h : Binding → Except String AnyVal) (e : String)
    (ht : lookupAssoc s.transitions tid = some t)
    (hb : ColoredPetriNet.findValidBindings s (ColoredPetriNet.getInputArcs s tid) = b :: bs)
    (hg : ColoredPetriNet.guardPasses t b = true)
    (hh : t.handler = some h)
    (he : h b = .error e) :
    ColoredPetriNet.fireTransition s tid none =
      (ColoredPetriNet.consumeAll s (ColoredPetriNet.getInputArcs s tid),
        .error (.handlerFailed e)) := by
  rcases hguard : t.guard with _ | g
  · simp [ColoredPetriNet.fireTransition, ht, hb, hguard,
      ColoredPetriNet.commitPhase, ColoredPetriNet.handlerResult, hh, he]
  · have hgb : g b = true := by
      simpa [ColoredPetriNet.guardPasses, hguard] using hg
    simp [ColoredPetriNet.fireTransition, ht, hb, hguard, hgb,
      ColoredPetriNet.commitPhase, ColoredPetriNet.handlerResult, hh, he]

/-- C1 witness: in `handlerFailNet` the handler rejects with `boom`; the
result state is the consumed state and the error propagates. -/
theorem C1_witness :
    ColoredPetriNet.fireTransition handlerFailNet ("t") none =
      (ColoredPetriNet.consumeAll handlerFailNet
        (ColoredPetriNet.getInputArcs handlerFailNet ("t")),
        .error (.handlerFailed ("boom"))) :=
  C1_handler_failure_keeps_consumption handlerFailNet ("t")
    { id := "t", name := "do:thing", handler := some failingHandler }
    [("p_token", .nat 7)] [] failingHandler ("boom") rfl rfl rfl rfl rfl

/-- C1 counterexample to the claim as stated: before the call place `p` holds
the seeded token; the handler rejects; afterwards `p` is empty - the input
token was consumed despite the handler failure, so the places are NOT
byte-for-byte identical to their pre-call state. -/
theorem C1_counterexample :
    (ColoredPetriNet.fireTransition handlerFailNet ("t") none).2 =
      .error (.handlerFailed ("boom")) ∧
    (lookupAssoc handlerFailNet.places ("p")).map Place.tokens = some [seedTok 7] ∧
    (lookupAssoc (ColoredPetriNet.fireTransition handlerFailNet ("t") none).1.places
      ("p")).map Place.tokens = some [] :=
  ⟨rfl, rfl, rfl⟩

/-! ### Claim C6 -/

/-- C6 (amended): `getState()` is a shallow snapshot - it exposes the
engine's own `Place` objects - so a caller that pushes a token through a
snapshot entry mutates the engine's own place: the engine's token list for
that place afterwards ends with the pushed token. -/
theorem C6_snapshot_mutation_reaches_engine (s : ColoredPetriNet) (pid : String)
    (p : Place) (tok : Token)
    (hp : lookupAssoc s.places pid = some p) :
    p ∈ (ColoredPetriNet.getState s).places ∧
    lookupAssoc (ColoredPetriNet.snapshotPushToken s pid tok).places pid =
      some { p with tokens := p.tokens ++ [tok] } := by
  constructor
  · rcases hfind : List.find? (fun q => q.1 == pid) s.places with _ | q
    · simp [lookupAssoc, hfind] at hp
    · have hq : q.2 = p := by simpa [lookupAssoc, hfind] using hp
      have hmem := List.mem_of_find?_eq_some hfind
      exact hq ▸ List.mem_map_of_mem (fun r => r.2) hmem
  · rw [ColoredPetriNet.snapshotPushToken, lookupAssoc_updateAssoc_self, hp]
    rfl

/-- C6 witness: the empty place of `emptyInputNet` is in the snapshot, and a
push through the snapshot shows up in the engine's own map. -/
theorem C6_witness :
    { id := "p", name := "P", tokens := [] } ∈
      (ColoredPetriNet.getState emptyInputNet).places ∧
    lookupAssoc (ColoredPetriNet.snapshotPushToken emptyInputNet ("p") pushedTok).places
      ("p") = some { id := "p", name := "P", tokens := [pushedTok] } :=
  C6_snapshot_mutation_reaches_engine emptyInputNet ("p")
    { id := "p", name := "P", tokens := [] } pushedTok rfl

/-- C6 counterexample to the claim as stated: before the snapshot mutation,
firing `t` fails (not enabled); after a caller pushes a token through the
`getState()` snapshot of place `p`, the same call succeeds - a snapshot
mutation changed the engine's state and the outcome of a subsequent
operation, and the place's token multiset changed without `addToken` or a
firing commit. -/
theorem C6_counterexample :
    (ColoredPetriNet.fireTransition emptyInputNet ("t") none).2 =
      .error (.notEnabled (("Transition ").append (("t").append (" is not enabled")))
        "do:thing" []) ∧
    (ColoredPetriNet.fireTransition
      (ColoredPetriNet.snapshotPushToken emptyInputNet ("p") pushedTok) ("t") none).2 =
      .ok (.obj [("p_token", .nat 9)]) :=
  ⟨rfl, rfl⟩

/-! ### Claim C2 -/

/-- C2 (amended): the binding search filters each arc's place tokens in FIFO
order by the arc's pattern only - it keeps NO record of tokens claimed by
earlier arcs.  For a single input arc it returns exactly the pattern-matching
tokens in FIFO order; with two unit-weight arcs reading the same one-token
place (where no aliasing-free assignment exists) it still emits a binding, in
which both arcs share the one place-derived variable bound to that single
token's color. -/
theorem C2_search_has_no_claimed_set :
    (∀ (s : ColoredPetriNet) (a : Arc) (p : Place),
      lookupAssoc s.places a.source = some p →
      ColoredPetriNet.findValidBindings s [a] =
        (p.tokens.filter (patPred a)).map
          (fun tok => [(a.source.append ("_token"), tok.color)])) ∧
    (∀ (s : ColoredPetriNet) (a1 a2 : Arc) (p : Place) (tok : Token),
      a2.source = a1.source →
      lookupAssoc s.places a1.source = some p →
      p.tokens = [tok] →
      a1.pattern = none → a2.pattern = none →
      ColoredPetriNet.findValidBindings s [a1, a2] =
        [[(a1.source.append ("_token"), tok.color)]]) := by
  constructor
  · intro s a p hp
    have key : ∀ (toks : List Token) (bs : List Binding),
        toks.foldl
          (fun acc tok =>
            if patPred a tok then
              (acc.1 ++ [setKey acc.2 (a.source.append ("_token")) tok.color],
                delKey (setKey acc.2 (a.source.append ("_token")) tok.color)
                  (a.source.append ("_token")))
            else acc)
          (bs, []) =
        (bs ++ (toks.filter (patPred a)).map
          (fun tok => [(a.source.append ("_token"), tok.color)]), []) := by
      intro toks
      induction toks with
      | nil => intro bs; simp
      | cons tok rest ih =>
        intro bs
        by_cases hpat : patPred a tok
        · have h2 := ih (bs ++ [[(a.source.append ("_token"), tok.color)]])
          simpa [hpat, setKey, delKey, List.append_assoc] using h2
        · simpa [hpat] using ih bs
    simp only [ColoredPetriNet.findValidBindings, ColoredPetriNet.checkBinding, hp]
    rw [key p.tokens []]
    simp
  · intro s a1 a2 p tok hsrc hp htoks hpat1 hpat2
    simp [ColoredPetriNet.findValidBindings, ColoredPetriNet.checkBinding, hp, htoks,
      hsrc, patPred, hpat1, hpat2, setKey, delKey]

/-- C2 witness: the single-arc characterization on `net0` and the one-token
two-arc aliasing on `aliasNet`, both concrete. -/
theorem C2_witness :
    ColoredPetriNet.findValidBindings net0 [{ id := "a1", source := "p", target := "t" }] =
      (([seedTok 1, seedTok 2]).filter
        (patPred { id := "a1", source := "p", target := "t" })).map
        (fun tok => [((("p").append ("_token")), tok.color)]) ∧
    ColoredPetriNet.findValidBindings aliasNet
      [{ id := "a1", source := "p", target := "t" },
       { id := "a2", source := "p", target := "t" }] =
      [[((("p").append ("_token")), (seedTok 0).color)]] :=
  ⟨C2_search_has_no_claimed_set.1 net0 { id := "a1", source := "p", target := "t" }
      { id := "p", name := "P", tokens := [seedTok 1, seedTok 2] } rfl,
   C2_search_has_no_claimed_set.2 aliasNet
      { id := "a1", source := "p", target := "t" }
      { id := "a2", source := "p", target := "t" }
      { id := "p", name := "P", tokens := [seedTok 0] } (seedTok 0) rfl rfl rfl rfl rfl⟩

/-- C2 counterexample to the claim as stated: in `aliasNet` one token sits in
`p` and two unit-weight arcs read `p`; a search that skips already-claimed
tokens finds NO complete binding (`specFindValidBindings`, the spec's
algorithm, returns `[]`), but the code's search emits a binding - both arcs
bound the identical token instance - and the transition even fires on it. -/
theorem C2_counterexample :
    ColoredPetriNet.findValidBindings aliasNet
      (ColoredPetriNet.getInputArcs aliasNet ("t")) = [[("p_token", .nat 0)]] ∧
    specFindValidBindings aliasNet (ColoredPetriNet.getInputArcs aliasNet ("t")) = [] ∧
    (ColoredPetriNet.fireTransition aliasNet ("t") none).2 =
      .ok (.obj [("p_token", .nat 0)]) :=
  ⟨rfl, rfl, rfl⟩

/-! ### Claim C5 -/

/-- C5: on the cyclic net `cycView` (transition `t` produces into place `p`
and also requires `p`, which is empty) the diagnostic path discovery never
completes: for EVERY recursion budget the fuel-indexed evaluation of
`findPathToFulfill` on target `p` is still unfinished, i.e. the JS recursion
- which has no visited set - calls itself forever and never returns a path
or a no-path answer. -/
theorem C5_path_discovery_diverges_on_cycle (fuel : Nat) :
    findPathToFulfill cycView fuel ["p"] = none := by
  induction fuel with
  | zero => rfl
  | succ n ih =>
    have ih' : findPathToFulfill
        { places := [{ id := "p", name := "P", description := none, tokens := [] }],
          transitions := [{ id := "t", name := "spin", description := none,
                            guard := none, handler := none }],
          arcs := [{ id := "a1", source := "p", target := "t", weight := none,
                     pattern := none, expression := none },
                   { id := "a2", source := "t", target := "p", weight := none,
                     pattern := none, expression := none }] } n ["p"] = none := ih
    simp [findPathToFulfill, fpfPlaces, fpfArcs, cycView, checkTransitionEnabled,
      getInputPlaces, ih']

/-! ### Claim C9 -/

theorem removeN_nil (n : Nat) (pred : Token → Bool) :
    ColoredPetriNet.removeN n pred [] = [] := by
  induction n with
  | zero => rfl
  | succ m ih => simpa [ColoredPetriNet.removeN, ColoredPetriNet.removeFirst] using ih

theorem updateAssoc_of_lookup_fix (m : List (String × α)) (k : String) (f : α → α)
    (h : ∀ v, lookupAssoc m k = some v → f v = v) : updateAssoc m k f = m := by
  induction m with
  | nil => rfl
  | cons hd tl ih =>
    obtain ⟨k0, v0⟩ := hd
    by_cases hk : k0 = k
    · have hv : f v0 = v0 := h v0 (by simp [lookupAssoc, List.find?, hk])
      simp [updateAssoc, hk, hv]
    · have hb : (k0 == k) = false := by simp [hk]
      have htl : ∀ v, lookupAssoc tl k = some v → f v = v := by
        intro v hv
        exact h v (by simpa [lookupAssoc, List.find?, hb] using hv)
      simp [updateAssoc, hb, ih htl]

theorem consumeArc_of_empty (s : ColoredPetriNet) (arc : Arc)
    (h : ∀ p, lookupAssoc s.places arc.source = some p → p.tokens = []) :
    ColoredPetriNet.consumeArc s arc = s := by
  rcases hl : lookupAssoc s.places arc.source with _ | p
  · simp [ColoredPetriNet.consumeArc, hl]
  · have hup : updateAssoc s.places arc.source
        (fun q => { q with tokens :=
          ColoredPetriNet.removeN (arcWeight arc) (patPred arc) q.tokens }) = s.places := by
      apply updateAssoc_of_lookup_fix
      intro v hv
      rw [hl] at hv
      cases hv
      have hv0 : p.tokens = [] := h p hl
      obtain ⟨pid, pname, pdesc, ptoks⟩ := p
      simp only at hv0
      subst hv0
      simp [removeN_nil]
    simp [ColoredPetriNet.consumeArc, hl, hup]

theorem consumeAll_of_empty (s : ColoredPetriNet) (arcs : List Arc)
    (h : ∀ arc ∈ arcs, ∀ p, lookupAssoc s.places arc.source = some p → p.tokens = []) :
    ColoredPetriNet.consumeAll s arcs = s := by
  induction arcs with
  | nil => rfl
  | cons a rest ih =>
    have h1 : ColoredPetriNet.consumeArc s a = s :=
      consumeArc_of_empty s a (h a (List.mem_cons_self a rest))
    have h2 : ∀ arc ∈ rest, ∀ p, lookupAssoc s.places arc.source = some p → p.tokens = [] :=
      fun arc harc => h arc (List.mem_cons_of_mem a harc)
    calc ColoredPetriNet.consumeAll s (a :: rest)
        = ColoredPetriNet.consumeAll s rest := by
          simp [ColoredPetriNet.consumeAll, h1]
      _ = s := ih h2

theorem totalTokens_push (m : List (String × Place)) (pid : String) (tok : Token)
    (h : (lookupAssoc m pid).isSome = true) :
    ((updateAssoc m pid (fun p => { p with tokens := p.tokens ++ [tok] })).map
      (fun q => q.2.tokens.length)).sum =
    (m.map (fun q => q.2.tokens.length)).sum + 1 := by
  induction m with
  | nil => simp [lookupAssoc] at h
  | cons hd tl ih =>
    obtain ⟨k0, v0⟩ := hd
    by_cases hk : k0 = pid
    · simp [updateAssoc, hk]
      omega
    · have hb : (k0 == pid) = false := by simp [hk]
      have htl : (lookupAssoc tl pid).isSome = true := by
        simpa [lookupAssoc, List.find?, hb] using h
      simp [updateAssoc, hb, ih htl]
      omega

theorem addToken_ok (s : ColoredPetriNet) (pid : String) (c : AnyVal)
    (h : (lookupAssoc s.places pid).isSome = true) :
    ∃ s', s.addToken pid c = .ok (s', ColoredPetriNet.mkTokenId (s.tokenCounter + 1)) ∧
      s'.tokenCounter = s.tokenCounter + 1 ∧
      totalTokens s' = totalTokens s + 1 ∧
      (∀ k, (lookupAssoc s'.places k).isSome = (lookupAssoc s.places k).isSome) ∧
      s'.transitions = s.transitions ∧ s'.arcs = s.arcs := by
  rcases hl : lookupAssoc s.places pid with _ | p
  · rw [hl] at h
    simp at h
  · refine ⟨{ s with
        tokenCounter := s.tokenCounter + 1,
        places := updateAssoc s.places pid
          (fun q => { q with tokens := q.tokens ++
            [{ id := ColoredPetriNet.mkTokenId (s.tokenCounter + 1), color := c,
               place := pid }] }) },
      ?_, rfl, ?_, ?_, rfl, rfl⟩
    · simp [ColoredPetriNet.addToken, hl]
    · simpa [totalTokens] using totalTokens_push s.places pid _ (by rw [hl]; rfl)
    · intro k
      exact isSome_lookupAssoc_updateAssoc s.places pid k _

theorem produceArc_ok (result : AnyVal) (arc : Arc) : ∀ (n : Nat) (s : ColoredPetriNet),
    (lookupAssoc s.places arc.target).isSome = true →
    ∃ s', ColoredPetriNet.produceArc result arc n s = (s', none) ∧
      totalTokens s' = totalTokens s + n ∧
      (∀ k, (lookupAssoc s'.places k).isSome = (lookupAssoc s.places k).isSome) ∧
      s'.transitions = s.transitions ∧ s'.arcs = s.arcs := by
  intro n
  induction n with
  | zero =>
    intro s h
    exact ⟨s, rfl, rfl, fun k => rfl, rfl, rfl⟩
  | succ m ih =>
    intro s h
    obtain ⟨s1, hadd, _, htot1, hkeys1, htr1, har1⟩ := addToken_ok s arc.target
      (match arc.expression with | some e => e result | none => result) h
    obtain ⟨s', hrec, htot2, hkeys2, htr2, har2⟩ := ih s1 (by rw [hkeys1]; exact h)
    refine ⟨s', ?_, by omega, fun k => (hkeys2 k).trans (hkeys1 k),
      htr2.trans htr1, har2.trans har1⟩
    simp [ColoredPetriNet.produceArc, hadd, hrec]

theorem produceAll_ok (result : AnyVal) : ∀ (arcs : List Arc) (s : ColoredPetriNet),
    (∀ arc ∈ arcs, (lookupAssoc s.places arc.target).isSome = true) →
    ∃ s', ColoredPetriNet.produceAll result arcs s = (s', none) ∧
      totalTokens s' = totalTokens s + (arcs.map arcWeight).sum ∧
      (∀ k, (lookupAssoc s'.places k).isSome = (lookupAssoc s.places k).isSome) ∧
      s'.transitions = s.transitions ∧ s'.arcs = s.arcs := by
  intro arcs
  induction arcs with
  | nil =>
    intro s _
    exact ⟨s, rfl, by simp, fun k => rfl, rfl, rfl⟩
  | cons a rest ih =>
    intro s h
    obtain ⟨s1, harc, htot1, hkeys1, htr1, har1⟩ :=
      produceArc_ok result a (arcWeight a) s (h a (List.mem_cons_self a rest))
    obtain ⟨s', hrest, htot2, hkeys2, htr2, har2⟩ := ih s1 (by
      intro arc harc'
      rw [hkeys1]
      exact h arc (List.mem_cons_of_mem a harc'))
    refine ⟨s', ?_, ?_, fun k => (hkeys2 k).trans (hkeys1 k),
      htr2.trans htr1, har2.trans har1⟩
    · simp [ColoredPetriNet.produceAll, harc, hrest]
    · simp only [List.map_cons, List.sum_cons]
      omega

/-- C9 (confirmed): a supplied binding is never checked against token
availability.  If the transition exists, the guard (if any) accepts the
supplied binding and the handler (if any) succeeds, then even with every
input place empty the firing succeeds: consumption removes nothing
(`consumeAll` is the identity here), while production still mints
weight-many tokens per output arc, so the net gains exactly the sum of the
output arc weights. -/
theorem C9_supplied_binding_bypasses_availability (s : ColoredPetriNet) (tid : String)
    (t : Transition) (b : Binding) (r : AnyVal)
    (ht : lookupAssoc s.transitions tid = some t)
    (hg : ColoredPetriNet.guardPasses t b = true)
    (hr : ColoredPetriNet.handlerResult t b = .ok r)
    (hempty : ∀ arc ∈ ColoredPetriNet.getInputArcs s tid, ∀ p,
      lookupAssoc s.places arc.source = some p → p.tokens = [])
    (houts : ∀ arc ∈ ColoredPetriNet.getOutputArcs s tid,
      (lookupAssoc s.places arc.target).isSome = true) :
    ColoredPetriNet.consumeAll s (ColoredPetriNet.getInputArcs s tid) = s ∧
    ∃ s', ColoredPetriNet.fireTransition s tid (some b) = (s', .ok r) ∧
      totalTokens s' = totalTokens s +
        ((ColoredPetriNet.getOutputArcs s tid).map arcWeight).sum := by
  have hcons := consumeAll_of_empty s _ hempty
  refine ⟨hcons, ?_⟩
  obtain ⟨s', hprod, htot, _, _, _⟩ :=
    produceAll_ok r (ColoredPetriNet.getOutputArcs s tid) s houts
  refine ⟨s', ?_, htot⟩
  rcases hguard : t.guard with _ | g
  · simp [ColoredPetriNet.fireTransition, ht, hguard, ColoredPetriNet.commitPhase,
      hcons, hr, hprod]
  · have hgb : g b = true := by simpa [ColoredPetriNet.guardPasses, hguard] using hg
    simp [ColoredPetriNet.fireTransition, ht, hguard, hgb, ColoredPetriNet.commitPhase,
      hcons, hr, hprod]

/-- C9 witness: `suppliedNet` has an empty input place and an empty output
place; firing with the supplied binding succeeds anyway, consumes nothing and
mints one output token. -/
theorem C9_witness :
    ColoredPetriNet.consumeAll suppliedNet
      (ColoredPetriNet.getInputArcs suppliedNet ("t")) = suppliedNet ∧
    ∃ s', ColoredPetriNet.fireTransition suppliedNet ("t") (some suppliedB) =
        (s', .ok (.obj suppliedB)) ∧
      totalTokens s' = totalTokens suppliedNet +
        ((ColoredPetriNet.getOutputArcs suppliedNet ("t")).map arcWeight).sum :=
  C9_supplied_binding_bypasses_availability suppliedNet ("t")
    { id := "t", name := "do:thing" } suppliedB (.obj suppliedB) rfl rfl rfl
    (by
      intro arc harc p hp
      have : arc = { id := "a1", source := "p", target := "t" } := by
        simpa [ColoredPetriNet.getInputArcs, suppliedNet] using harc
      subst this
      have : p = { id := "p", name := "P", tokens := [] } := by
        simpa [lookupAssoc, suppliedNet, List.find?] using hp.symm
      subst this
      rfl)
    (by
      intro arc harc
      have : arc = { id := "a2", source := "t", target := "q" } := by
        simpa [ColoredPetriNet.getOutputArcs, suppliedNet] using harc
      subst this
      rfl)

/-! ### Claim C10 -/

theorem addToken_ok_inv (s : ColoredPetriNet) (pid : String) (c : AnyVal)
    (s' : ColoredPetriNet) (tid' : String)
    (h : s.addToken pid c = .ok (s', tid')) :
    tid' = ColoredPetriNet.mkTokenId (s.tokenCounter + 1) ∧
    s'.tokenCounter = s.tokenCounter + 1 := by
  unfold ColoredPetriNet.addToken at h
  rcases hl : lookupAssoc s.places pid with _ | p
  · rw [hl] at h
    simp at h
  · rw [hl] at h
    simp only [Except.ok.injEq, Prod.mk.injEq] at h
    exact ⟨h.2.symm, by rw [← h.1]⟩

theorem tokenCounter_consumeArc (s : ColoredPetriNet) (arc : Arc) :
    (ColoredPetriNet.consumeArc s arc).tokenCounter = s.tokenCounter := by
  rcases hl : lookupAssoc s.places arc.source with _ | p <;>
    simp [ColoredPetriNet.consumeArc, hl]

theorem tokenCounter_consumeAll : ∀ (arcs : List Arc) (s : ColoredPetriNet),
    (ColoredPetriNet.consumeAll s arcs).tokenCounter = s.tokenCounter := by
  intro arcs
  induction arcs with
  | nil => intro s; rfl
  | cons a rest ih =>
    intro s
    calc (ColoredPetriNet.consumeAll s (a :: rest)).tokenCounter
        = (ColoredPetriNet.consumeAll (ColoredPetriNet.consumeArc s a) rest).tokenCounter :=
          rfl
      _ = (ColoredPetriNet.consumeArc s a).tokenCounter := ih _
      _ = s.tokenCounter := tokenCounter_consumeArc s a

theorem tokenCounter_produceArc_le (result : AnyVal) (arc : Arc) :
    ∀ (n : Nat) (s : ColoredPetriNet),
    s.tokenCounter ≤ (ColoredPetriNet.produceArc result arc n s).1.tokenCounter := by
  intro n
  induction n with
  | zero => intro s; exact le_refl _
  | succ m ih =>
    intro s
    rcases hadd : s.addToken arc.target
        (match arc.expression with | some e => e result | none => result) with e | ⟨s1, id1⟩
    · simp [ColoredPetriNet.produceArc, hadd]
    · have h1 := (addToken_ok_inv _ _ _ _ _ hadd).2
      have h2 := ih s1
      simp only [ColoredPetriNet.produceArc, hadd]
      omega

theorem tokenCounter_produceAll_le (result : AnyVal) :
    ∀ (arcs : List Arc) (s : ColoredPetriNet),
    s.tokenCounter ≤ (ColoredPetriNet.produceAll result arcs s).1.tokenCounter := by
  intro arcs
  induction arcs with
  | nil => intro s; exact le_refl _
  | cons a rest ih =>
    intro s
    rcases hp : ColoredPetriNet.produceArc result a (arcWeight a) s with ⟨s1, oe⟩
    have h1 : s.tokenCounter ≤ s1.tokenCounter := by
      simpa [hp] using tokenCounter_produceArc_le result a (arcWeight a) s
    rcases oe with _ | e
    · have h2 := ih s1
      simp only [ColoredPetriNet.produceAll, hp]
      omega
    · simp [ColoredPetriNet.produceAll, hp]
      omega

theorem tokenCounter_commitPhase_le (s : ColoredPetriNet) (t : Transition) (tid : String)
    (b : Binding) :
    s.tokenCounter ≤ (ColoredPetriNet.commitPhase s t tid b).1.tokenCounter := by
  have hc := tokenCounter_consumeAll (ColoredPetriNet.getInputArcs s tid) s
  rcases hr : ColoredPetriNet.handlerResult t b with e | r
  · simp only [ColoredPetriNet.commitPhase, hr]
    omega
  · rcases hprod : ColoredPetriNet.produceAll r
        (ColoredPetriNet.getOutputArcs
          (ColoredPetriNet.consumeAll s (ColoredPetriNet.getInputArcs s tid)) tid)
        (ColoredPetriNet.consumeAll s (ColoredPetriNet.getInputArcs s tid)) with ⟨s2, oe⟩
    have hpa : (ColoredPetriNet.consumeAll s
        (ColoredPetriNet.getInputArcs s tid)).tokenCounter ≤ s2.tokenCounter := by
      simpa [hprod] using tokenCounter_produceAll_le r
        (ColoredPetriNet.getOutputArcs
          (ColoredPetriNet.consumeAll s (ColoredPetriNet.getInputArcs s tid)) tid)
        (ColoredPetriNet.consumeAll s (ColoredPetriNet.getInputArcs s tid))
    rcases oe with _ | e <;> simp [ColoredPetriNet.commitPhase, hr, hprod] <;> omega

theorem tokenCounter_fireTransition_le (s : ColoredPetriNet) (tid : String)
    (ob : Option Binding) :
    s.tokenCounter ≤ (ColoredPetriNet.fireTransition s tid ob).1.tokenCounter := by
  rcases ht : lookupAssoc s.transitions tid with _ | t
  · simp [ColoredPetriNet.fireTransition, ht]
  · rcases ob with _ | b
    · rcases hfb : ColoredPetriNet.findValidBindings s
          (ColoredPetriNet.getInputArcs s tid) with _ | ⟨b, bs⟩
      · simp [ColoredPetriNet.fireTransition, ht, hfb]
      · rcases hguard : t.guard with _ | g
        · simpa [ColoredPetriNet.fireTransition, ht, hfb, hguard] using
            tokenCounter_commitPhase_le s t tid b
        · by_cases hgb : g b
          · simpa [ColoredPetriNet.fireTransition, ht, hfb, hguard, hgb] using
              tokenCounter_commitPhase_le s t tid b
          · simp [ColoredPetriNet.fireTransition, ht, hfb, hguard, hgb]
    · rcases hguard : t.guard with _ | g
      · simpa [ColoredPetriNet.fireTransition, ht, hguard] using
          tokenCounter_commitPhase_le s t tid b
      · by_cases hgb : g b
        · simpa [ColoredPetriNet.fireTransition, ht, hguard, hgb] using
            tokenCounter_commitPhase_le s t tid b
        · simp [ColoredPetriNet.fireTransition, ht, hguard, hgb]

/-- Decimal digit list of `n`, most significant first: the reference value of
`Nat.toDigitsCore` with enough fuel. -/
def decDigits (n : Nat) : List Char :=
  if _ : n < 10 then [Nat.digitChar n]
  else decDigits (n / 10) ++ [Nat.digitChar (n % 10)]
termination_by n
decreasing_by
  exact Nat.div_lt_self (by omega) (by omega)

theorem decDigits_unfold (k : Nat) :
    decDigits k = if k < 10 then [Nat.digitChar k]
      else decDigits (k / 10) ++ [Nat.digitChar (k % 10)] := by
  rw [decDigits]
  by_cases h : k < 10 <;> simp [h]

theorem decDigits_ne_nil (n : Nat) : decDigits n ≠ [] := by
  rw [decDigits_unfold]
  by_cases h : n < 10 <;> simp [h]

theorem toDigitsCore_eq_decDigits : ∀ (f n : Nat) (l : List Char), n < f →
    Nat.toDigitsCore 10 f n l = decDigits n ++ l := by
  intro f
  induction f with
  | zero => intro n l h; omega
  | succ m ih =>
    intro n l h
    by_cases h10 : n / 10 = 0
    · have hn10 : n < 10 := by omega
      rw [Nat.toDigitsCore]
      simp only [h10, if_true]
      rw [decDigits]
      simp [hn10, Nat.mod_eq_of_lt hn10]
    · have hn : ¬n < 10 := by omega
      have hrec : n / 10 < m := by omega
      rw [Nat.toDigitsCore]
      simp only [h10, if_false]
      rw [ih (n / 10) (Nat.digitChar (n % 10) :: l) hrec]
      conv_rhs => rw [decDigits]
      simp [hn, List.append_assoc]

theorem digitChar_inj_lt10 :
    ∀ a < 10, ∀ b < 10, Nat.digitChar a = Nat.digitChar b → a = b := by decide

theorem decDigits_inj : ∀ m, ∀ n, decDigits m = decDigits n → m = n := by
  intro m
  induction m using Nat.strong_induction_on with
  | _ m ih =>
    intro n h
    rw [decDigits_unfold m, decDigits_unfold n] at h
    by_cases hm : m < 10 <;> by_cases hn : n < 10
    · simp only [hm, hn, if_true, List.cons.injEq] at h
      exact digitChar_inj_lt10 m hm n hn h.1
    · exfalso
      simp only [hm, hn, if_true, if_false] at h
      have hlen := congrArg List.length h
      have hpos : 0 < (decDigits (n / 10)).length :=
        List.length_pos.mpr (decDigits_ne_nil _)
      simp only [List.length_cons, List.length_nil, List.length_append] at hlen
      omega
    · exfalso
      simp only [hm, hn, if_true, if_false] at h
      have hlen := congrArg List.length h
      have hpos : 0 < (decDigits (m / 10)).length :=
        List.length_pos.mpr (decDigits_ne_nil _)
      simp only [List.length_cons, List.length_nil, List.length_append] at hlen
      omega
    · simp only [hm, hn, if_false] at h
      obtain ⟨h1, h2⟩ := List.append_inj' h rfl
      simp only [List.cons.injEq] at h2
      have hmod : m % 10 = n % 10 :=
        digitChar_inj_lt10 (m % 10) (Nat.mod_lt _ (by omega)) (n % 10)
          (Nat.mod_lt _ (by omega)) h2.1
      have hdiv : m / 10 = n / 10 :=
        ih (m / 10) (Nat.div_lt_self (by omega) (by omega)) (n / 10) h1
      omega

theorem natRepr_inj {m n : Nat} (h : Nat.repr m = Nat.repr n) : m = n := by
  have hd : Nat.toDigits 10 m = Nat.toDigits 10 n := by
    have := congrArg String.data h
    simpa [Nat.repr, List.asString] using this
  rw [Nat.toDigits, Nat.toDigits,
    toDigitsCore_eq_decDigits (m + 1) m [] (by omega),
    toDigitsCore_eq_decDigits (n + 1) n [] (by omega)] at hd
  simp only [List.append_nil] at hd
  exact decDigits_inj m n hd

theorem mkTokenId_inj {m n : Nat}
    (h : ColoredPetriNet.mkTokenId m = ColoredPetriNet.mkTokenId n) : m = n := by
  have hd : ("token-").data ++ (Nat.repr m).data =
      ("token-").data ++ (Nat.repr n).data := congrArg String.data h
  exact natRepr_inj (String.ext (List.append_cancel_left hd))

/-- C10 (confirmed): every successful `addToken` call - seeding or a
firing's output production both go through `addToken` - returns the id
`token-${counter+1}` and bumps the counter by exactly one; the counter never
decreases across a firing; and two mints, the second starting from a counter
at least as large as the first call left behind, always return distinct ids. -/
theorem C10_token_ids_globally_fresh :
    (∀ (s : ColoredPetriNet) (pid : String) (c : AnyVal) (s' : ColoredPetriNet)
        (tid' : String),
      s.addToken pid c = .ok (s', tid') →
      tid' = ColoredPetriNet.mkTokenId (s.tokenCounter + 1) ∧
      s'.tokenCounter = s.tokenCounter + 1) ∧
    (∀ (s : ColoredPetriNet) (tid : String) (ob : Option Binding),
      s.tokenCounter ≤ (ColoredPetriNet.fireTransition s tid ob).1.tokenCounter) ∧
    (∀ (s₁ : ColoredPetriNet) (pid₁ : String) (c₁ : AnyVal) (s₁' : ColoredPetriNet)
        (id₁ : String) (s₂ : ColoredPetriNet) (pid₂ : String) (c₂ : AnyVal)
        (s₂' : ColoredPetriNet) (id₂ : String),
      s₁.addToken pid₁ c₁ = .ok (s₁', id₁) →
      s₁'.tokenCounter ≤ s₂.tokenCounter →
      s₂.addToken pid₂ c₂ = .ok (s₂', id₂) →
      id₁ ≠ id₂) := by
  refine ⟨addToken_ok_inv, tokenCounter_fireTransition_le, ?_⟩
  intro s₁ pid₁ c₁ s₁' id₁ s₂ pid₂ c₂ s₂' id₂ h1 hle h2 heq
  obtain ⟨hid1, hc1⟩ := addToken_ok_inv _ _ _ _ _ h1
  obtain ⟨hid2, _⟩ := addToken_ok_inv _ _ _ _ _ h2
  rw [hid1, hid2] at heq
  have := mkTokenId_inj heq
  omega

/-- C10 witness: two consecutive mints on the same net return `token-1` and
`token-2`, which are distinct. -/
theorem C10_witness :
    ColoredPetriNet.addToken emptyInputNet ("p") (.nat 1) =
      .ok (afterMint1, "token-1") ∧
    ColoredPetriNet.addToken afterMint1 ("p") (.nat 2) =
      .ok (afterMint2, "token-2") ∧
    ("token-1" : String) ≠ "token-2" :=
  ⟨rfl, rfl,
    C10_token_ids_globally_fresh.2.2 emptyInputNet ("p") (.nat 1) afterMint1
      ("token-1") afterMint1 ("p") (.nat 2) afterMint2 ("token-2") rfl
      (le_refl _) rfl⟩

example :
    ColoredPetriNet.findValidBindings net0 (ColoredPetriNet.getInputArcs net0 ("t")) =
      [[("p_token", .nat 1)], [("p_token", .nat 2)]] := rfl

example :
    ColoredPetriNet.findValidBindings net0' (ColoredPetriNet.getInputArcs net0' ("t")) =
      [[("p_token", .nat 1)], [("p_token", .nat 2)],
       [("p_token", .nat 1)], [("p_token", .nat 2)]] := rfl
